import Mathlib

/-!
Shallow embedding of the binary wire-protocol core of the
HighPerformanceAsyncMessagingServer repository: CRC32, frame header,
frame codec (`MessageSerializer`), bit-pack utilities (`BitPackUtils`),
per-message payload codecs (`ProtocolMessages.h`) and the dispatch
registry (`HandlerRegistry`), together with proofs of the spec's claims
about them.

Bytes are modelled as `Nat` (a faithful model of `uint8_t` values, which
are always `< 256`); byte buffers as `List Nat`; machine arithmetic that
can overflow carries explicit masks, mirroring the C++ expressions.
Fallible operations return `Option`, with `none` standing for the
failure return (`false` / `consumed == 0`) of the source.
-/

namespace Protocol

/-! ### Protocol constants (BinaryProtocol.h) -/

def PROTOCOL_MAGIC : Nat := 0xAB

def PROTOCOL_VERSION : Nat := 0x01

def FRAME_HEADER_SIZE : Nat := 8

def CHECKSUM_SIZE : Nat := 4

def MIN_FRAME_SIZE : Nat := FRAME_HEADER_SIZE + CHECKSUM_SIZE

def MAX_PAYLOAD_SIZE : Nat := 65535

/-! ### CRC32 (BinaryProtocol.cpp) -/

/-- The standard CRC32 polynomial constant `POLY = 0xEDB88320`. -/
def POLY : Nat := 0xEDB88320

/-- One shift-xor step of the CRC table generator / reference algorithm:
`if (crc & 1) crc = (crc >> 1) ^ POLY; else crc >>= 1;`. -/
def crcStep (crc : Nat) : Nat :=
  if crc &&& 1 = 1 then (crc >>> 1) ^^^ POLY else crc >>> 1

/-- The 256-entry lookup table built by the initialisation loop in
`BinaryProtocol.cpp`: entry `i` starts at `crc = i` and applies eight
shift-xor steps. (The lazy-initialisation flag is state the caller
cannot observe; the table contents are this pure function.) -/
def crc_table (i : Nat) : Nat := crcStep^[8] i

/-- The per-byte update of `crc32::calculate`:
`index = (crc ^ data[i]) & 0xFF; crc = (crc >> 8) ^ crc_table[index];`. -/
def crc32_update (crc b : Nat) : Nat :=
  (crc >>> 8) ^^^ crc_table ((crc ^^^ b) &&& 0xFF)

/-- `crc32::calculate(data, length)`: table-driven CRC32 with initial
register `0xFFFFFFFF` and final XOR with `0xFFFFFFFF`. -/
def crc32_calculate (data : List Nat) : Nat :=
  (data.foldl crc32_update 0xFFFFFFFF) ^^^ 0xFFFFFFFF

/-- The spec's description of the checksum ("standard reflected CRC32,
polynomial `0xEDB88320`, initial register `0xFFFFFFFF`, final result
XORed with `0xFFFFFFFF`"), written without the lookup table: each byte
is XORed into the low bits of the register and eight shift-xor steps
are applied.  This is the reference definition C6 compares
`crc32_calculate` against. -/
def crc32_reference (data : List Nat) : Nat :=
  (data.foldl (fun crc b => crcStep^[8] (crc ^^^ b)) 0xFFFFFFFF) ^^^ 0xFFFFFFFF

/-! ### Frame header (BinaryProtocol.h) -/

/-- `FrameHeader`: all fields are `Nat` models of `uint8_t`/`uint16_t`
fields, so theorems about headers carry the corresponding range
hypotheses where they matter. -/
structure FrameHeader where
  magic : Nat
  version : Nat
  message_type : Nat
  flags : Nat
  payload_length : Nat
  reserved : Nat
deriving Repr, DecidableEq

/-- `FrameHeader::is_valid()`. -/
def FrameHeader.is_valid (h : FrameHeader) : Bool :=
  h.magic == PROTOCOL_MAGIC && h.version == PROTOCOL_VERSION &&
    h.payload_length ≤ MAX_PAYLOAD_SIZE

/-- `MessageSerializer::calculate_frame_size`. -/
def calculate_frame_size (h : FrameHeader) : Nat :=
  FRAME_HEADER_SIZE + h.payload_length + CHECKSUM_SIZE

/-! ### Little-endian reads of a byte buffer -/

/-- Read the little-endian 16-bit value at offset `i`
(`data[i] | data[i+1] << 8`). All call sites in the embedded code are
in bounds, so `getD` with default `0` is never exercised out of range
in any theorem below. -/
def read_le16 (data : List Nat) (i : Nat) : Nat :=
  data.getD i 0 ||| (data.getD (i+1) 0 <<< 8)

/-- Read the little-endian 32-bit value at offset `i`. -/
def read_le32 (data : List Nat) (i : Nat) : Nat :=
  data.getD i 0 ||| (data.getD (i+1) 0 <<< 8) |||
    (data.getD (i+2) 0 <<< 16) ||| (data.getD (i+3) 0 <<< 24)

/-- Read the little-endian 64-bit value at offset `i`. -/
def read_le64 (data : List Nat) (i : Nat) : Nat :=
  data.getD i 0 ||| (data.getD (i+1) 0 <<< 8) |||
    (data.getD (i+2) 0 <<< 16) ||| (data.getD (i+3) 0 <<< 24) |||
    (data.getD (i+4) 0 <<< 32) ||| (data.getD (i+5) 0 <<< 40) |||
    (data.getD (i+6) 0 <<< 48) ||| (data.getD (i+7) 0 <<< 56)

/-- The four little-endian bytes of a 32-bit value, as written by
`serialize_payload_and_checksum` for the checksum. -/
def le32_bytes (v : Nat) : List Nat :=
  [v &&& 0xFF, (v >>> 8) &&& 0xFF, (v >>> 16) &&& 0xFF, (v >>> 24) &&& 0xFF]

/-- The eight bytes `serialize_header` emits for a header: four raw bytes
then the two 16-bit fields in little-endian order. -/
def header_bytes (h : FrameHeader) : List Nat :=
  [h.magic, h.version, h.message_type, h.flags,
    h.payload_length &&& 0xFF, (h.payload_length >>> 8) &&& 0xFF,
    h.reserved &&& 0xFF, (h.reserved >>> 8) &&& 0xFF]

/-! ### NetworkBuffer (NetworkBuffer.h) -/

/-- `core::net::NetworkBuffer`: a fixed-capacity byte buffer with a write
position. `contents` are the bytes written so far (`write_pos =
contents.length`); bytes past the write position are never read by the
embedded serialisation code. -/
structure NetworkBuffer where
  cap : Nat
  contents : List Nat
deriving Repr, DecidableEq

/-- `NetworkBuffer::write`: fails (buffer unchanged) when
`write_pos + length > size`, else appends. -/
def NetworkBuffer.write (b : NetworkBuffer) (bytes : List Nat) :
    Bool × NetworkBuffer :=
  if b.contents.length + bytes.length > b.cap then (false, b)
  else (true, { b with contents := b.contents ++ bytes })

/-- `NetworkBuffer::write_byte`. -/
def NetworkBuffer.write_byte (b : NetworkBuffer) (x : Nat) :
    Bool × NetworkBuffer :=
  b.write [x]

/-- `NetworkBuffer::write_uint16` (little-endian). -/
def NetworkBuffer.write_uint16 (b : NetworkBuffer) (v : Nat) :
    Bool × NetworkBuffer :=
  b.write [v &&& 0xFF, (v >>> 8) &&& 0xFF]

/-! ### MessageSerializer (MessageSerializer.cpp) -/

/-- `MessageSerializer::serialize_header`: the `&&`-chain of byte writes,
stopping (and leaving the last-reached state) at the first failed
write. -/
def serialize_header (h : FrameHeader) (b : NetworkBuffer) :
    Bool × NetworkBuffer :=
  match b.write_byte h.magic with
  | (false, b1) => (false, b1)
  | (true, b1) =>
  match b1.write_byte h.version with
  | (false, b2) => (false, b2)
  | (true, b2) =>
  match b2.write_byte h.message_type with
  | (false, b3) => (false, b3)
  | (true, b3) =>
  match b3.write_byte h.flags with
  | (false, b4) => (false, b4)
  | (true, b4) =>
  match b4.write_uint16 h.payload_length with
  | (false, b5) => (false, b5)
  | (true, b5) => b5.write_uint16 h.reserved

/-- `MessageSerializer::serialize_payload_and_checksum`: writes the
payload, computes CRC32 over the bytes at absolute offsets
`[FRAME_HEADER_SIZE, FRAME_HEADER_SIZE + payload_length)` of the
buffer, and writes the 4 little-endian checksum bytes. -/
def serialize_payload_and_checksum (payload : List Nat)
    (b : NetworkBuffer) : Bool × NetworkBuffer :=
  match b.write payload with
  | (false, b1) => (false, b1)
  | (true, b1) =>
    b1.write (le32_bytes (crc32_calculate
      ((b1.contents.drop FRAME_HEADER_SIZE).take payload.length)))

/-- `MessageSerializer::serialize_frame`. The C++ `payload_length`
argument is `payload.length` (the callers pass the length of the
pointed-to bytes). -/
def serialize_frame (h : FrameHeader) (payload : List Nat)
    (b : NetworkBuffer) : Bool × NetworkBuffer :=
  if !h.is_valid then (false, b)
  else
    match serialize_header h b with
    | (false, b1) => (false, b1)
    | (true, b1) => serialize_payload_and_checksum payload b1

/-- The unconditional field extraction of `deserialize_header` (the
assignments to `header.*` before the validity check). -/
def decode_header_raw (data : List Nat) : FrameHeader :=
  { magic := data.getD 0 0
    version := data.getD 1 0
    message_type := data.getD 2 0
    flags := data.getD 3 0
    payload_length := data.getD 4 0 ||| (data.getD 5 0 <<< 8)
    reserved := data.getD 6 0 ||| (data.getD 7 0 <<< 8) }

/-- `MessageSerializer::deserialize_header`: `none` models the
`consumed == 0` failure returns (insufficient data / invalid header);
`some h` models `consumed == FRAME_HEADER_SIZE` with the decoded
header. -/
def deserialize_header (data : List Nat) : Option FrameHeader :=
  if data.length < FRAME_HEADER_SIZE then none
  else
    if (decode_header_raw data).is_valid then some (decode_header_raw data)
    else none

/-- `MessageSerializer::deserialize_frame`: `none` models every
`consumed == 0` return; `some (h, p, c)` models success with decoded
header `h`, extracted payload `p` and `consumed = c = frame_size`. -/
def deserialize_frame (data : List Nat) :
    Option (FrameHeader × List Nat × Nat) :=
  match deserialize_header data with
  | none => none
  | some header =>
    let frame_size := calculate_frame_size header
    if data.length < frame_size then none
    else
      let received_checksum :=
        read_le32 data (FRAME_HEADER_SIZE + header.payload_length)
      let calculated_checksum := crc32_calculate
        ((data.drop FRAME_HEADER_SIZE).take header.payload_length)
      if received_checksum ≠ calculated_checksum then none
      else some (header,
        (data.drop FRAME_HEADER_SIZE).take header.payload_length,
        frame_size)

/-- `MessageSerializer::validate_frame`. -/
def validate_frame (data : List Nat) : Bool :=
  if data.length < MIN_FRAME_SIZE then false
  else
    match deserialize_header data with
    | none => false
    | some header =>
      if data.length ≠ calculate_frame_size header then false
      else
        read_le32 data (FRAME_HEADER_SIZE + header.payload_length) ==
          crc32_calculate
            ((data.drop FRAME_HEADER_SIZE).take header.payload_length)

/-! ### Message payload codecs (ProtocolMessages.h) -/

/-- `messages::PingMessage` (field values). -/
structure PingMessage where
  sequence_id : Nat
  timestamp : Nat
deriving Repr, DecidableEq

/-- `sizeof(PingMessage)` under the LP64 ABI this 64-bit epoll server
targets: `uint32_t sequence_id` (offset 0), 4 bytes of alignment padding,
`uint64_t timestamp` (offset 8), total 16 bytes. -/
def sizeofPingMessage : Nat := 16

/-- `PingHandler::deserialize_payload`: requires `sizeof(PingMessage)`
input bytes and `memcpy`s the raw bytes over the struct, so under the
LP64 layout `sequence_id` is read from bytes 0-3 and `timestamp` from
bytes 8-15 (input bytes 4-7 land in the padding and are discarded). -/
def PingHandler_deserialize_payload (data : List Nat) :
    Option PingMessage :=
  if data.length < sizeofPingMessage then none
  else some { sequence_id := read_le32 data 0, timestamp := read_le64 data 8 }

/-- Modelled from the spec: the fixed 12-byte Ping wire layout of §3
(`sequence_id:u32` at bytes 0-3, `timestamp:u64` at bytes 4-11) decoded
field-by-field at fixed little-endian byte offsets as §4.5 prescribes
("do not rely on in-memory structure layout").  The source instead
rejects inputs shorter than the padded 16-byte struct and reads
`timestamp` at offset 8; this definition states what the claim asserts,
for comparison. -/
def ping_decode_spec (data : List Nat) : Option PingMessage :=
  if data.length < 12 then none
  else some { sequence_id := read_le32 data 0, timestamp := read_le64 data 4 }

/-- `messages::EchoMessage::MAX_DATA`. -/
def MAX_DATA : Nat := 256

/-- `messages::EchoMessage` (observable decoded values: the declared
length and the copied data bytes). -/
structure EchoMessage where
  length : Nat
  data : List Nat
deriving Repr, DecidableEq

/-- `EchoHandler::deserialize_payload`: rejects input buffers longer than
`MAX_DATA + sizeof(uint16_t) = 258` bytes or shorter than 2 bytes, reads
the declared `length` as the (little-endian) `uint16_t` at bytes 0-1,
rejects if fewer than `2 + length` bytes are available, else copies
`length` bytes from offset 2 (the decoded `length` field is that
`u16`). -/
def EchoHandler_deserialize_payload (data : List Nat) :
    Option EchoMessage :=
  if data.length > MAX_DATA + 2 then none
  else if data.length < 2 then none
  else if data.length < 2 + read_le16 data 0 then none
  else some { length := read_le16 data 0
              data := (data.drop 2).take (read_le16 data 0) }

/-- `messages::DataMessage` (observable decoded values). -/
structure DataMessage where
  data_type : Nat
  data_id : Nat
  data_length : Nat
  data : List Nat
deriving Repr, DecidableEq

/-- A single byte read from the caller's buffer: `none` models an
out-of-bounds access (undefined behaviour in the source). -/
def readByte (data : List Nat) (i : Nat) : Option Nat :=
  data.get? i

/-- `DataHandler::deserialize_payload`, instrumented so that every raw
byte access is a `readByte`: the outer `none` means the code performed a
read past the end of the supplied buffer (undefined behaviour),
`some none` is a clean decode failure, `some (some m)` a success.  After
checking only `length >= 4`, the code unconditionally `memcpy`s
`data_type` (bytes 0-1), `data_id` (bytes 2-3) and `data_length`
(bytes 4-5). -/
def DataHandler_deserialize_payload (data : List Nat) :
    Option (Option DataMessage) :=
  if data.length < 4 then some none
  else
    match readByte data 0, readByte data 1, readByte data 2,
        readByte data 3, readByte data 4, readByte data 5 with
    | some b0, some b1, some b2, some b3, some b4, some b5 =>
      let data_type := b0 ||| (b1 <<< 8)
      let data_id := b2 ||| (b3 <<< 8)
      let data_length := b4 ||| (b5 <<< 8)
      if data_length > 512 then some none
      else if data.length < 6 + data_length then some none
      else some (some { data_type := data_type
                        data_id := data_id
                        data_length := data_length
                        data := (data.drop 6).take data_length })
    | _, _, _, _, _, _ => none

/-! ### Dispatch registry (HandlerRegistry.cpp) -/

/-- A registered handler: its message type, an identity distinguishing
distinct handler objects, and the (abstracted) success result its
`handle` callback reports on dispatch. -/
structure Handler where
  message_type : Nat
  hid : Nat
  result : Bool
deriving Repr, DecidableEq

/-- The `std::unordered_map<MessageType, handler>` state, as an
association list with (invariantly) unique keys. -/
abbrev Registry := List (Nat × Handler)

/-- `HandlerRegistry::register_handler`: rejects a null handler, rejects
a duplicate message type, else stores the handler under its type. -/
def register_handler (reg : Registry) (h : Option Handler) :
    Bool × Registry :=
  match h with
  | none => (false, reg)
  | some handler =>
    let t := handler.message_type
    if (List.lookup t reg).isSome then (false, reg)
    else (true, (t, handler) :: reg)

/-- `HandlerRegistry::unregister_handler`: erases the entry found for
the type, returns whether one was present. -/
def unregister_handler (reg : Registry) (t : Nat) : Bool × Registry :=
  if (List.lookup t reg).isSome then
    (true, reg.eraseP (fun e => e.1 == t))
  else (false, reg)

/-- `HandlerRegistry::get_handler`. -/
def get_handler (reg : Registry) (t : Nat) : Option Handler :=
  List.lookup t reg

/-- `HandlerRegistry::dispatch`: looks the handler up; absent types fail;
otherwise the handler's `handle` outcome is returned.  The registry is
never mutated. -/
def dispatch (reg : Registry) (t : Nat) : Bool × Registry :=
  match get_handler reg t with
  | none => (false, reg)
  | some h => (h.result, reg)

/-- `HandlerRegistry::clear`. -/
def clear_registry (_reg : Registry) : Registry := []

/-- Registry states reachable from the fresh (empty) registry by any
sequence of the four mutating/observing operations. -/
inductive ReachableRegistry : Registry → Prop where
  | init : ReachableRegistry []
  | reg (r : Registry) (h : Option Handler) :
      ReachableRegistry r → ReachableRegistry (register_handler r h).2
  | unreg (r : Registry) (t : Nat) :
      ReachableRegistry r → ReachableRegistry (unregister_handler r t).2
  | disp (r : Registry) (t : Nat) :
      ReachableRegistry r → ReachableRegistry (dispatch r t).2
  | clr (r : Registry) : ReachableRegistry r →
      ReachableRegistry (clear_registry r)

/-! ### BitPackUtils (BitPackUtils.cpp) -/

/-- The write loop of `BitPackUtils::pack_bits`.  The buffer is a total
byte function (the C++ pointer has no bounds).  Each iteration ORs
`bits_value << bit_pos` into `buffer[byte_pos]` — the stored value stays
below 256 whenever the byte was, since `bit_pos + bits_to_write ≤ 8`, so
the `uint8_t` store truncates nothing.  The source maintains
`bit_pos < 8` as a loop invariant (established by `offset % 8`, restored
by the end-of-byte reset); it appears in the guard only to make the
recursion well-founded. -/
def packLoop (buf : Nat → Nat) (bytePos bitPos value bitsWritten numBits : Nat) :
    Nat → Nat :=
  if _h : bitsWritten < numBits ∧ bitPos < 8 then
    let bitsToWrite := min (8 - bitPos) (numBits - bitsWritten)
    let bits_value := (value >>> bitsWritten) &&& (2 ^ bitsToWrite - 1)
    let buf' : Nat → Nat := fun j =>
      if j = bytePos then buf bytePos ||| (bits_value <<< bitPos) else buf j
    if 8 ≤ bitPos + bitsToWrite then
      packLoop buf' (bytePos + 1) 0 value (bitsWritten + bitsToWrite) numBits
    else
      packLoop buf' bytePos (bitPos + bitsToWrite) value
        (bitsWritten + bitsToWrite) numBits
  else buf
termination_by numBits - bitsWritten
decreasing_by all_goals omega

/-- The read loop of `BitPackUtils::unpack_bits`, accumulating
`result |= bits_value << bits_read`. -/
def unpackLoop (buf : Nat → Nat) (bytePos bitPos acc bitsRead numBits : Nat) :
    Nat :=
  if _h : bitsRead < numBits ∧ bitPos < 8 then
    let bitsToRead := min (8 - bitPos) (numBits - bitsRead)
    let bits_value := (buf bytePos >>> bitPos) &&& (2 ^ bitsToRead - 1)
    if 8 ≤ bitPos + bitsToRead then
      unpackLoop buf (bytePos + 1) 0 (acc ||| (bits_value <<< bitsRead))
        (bitsRead + bitsToRead) numBits
    else
      unpackLoop buf bytePos (bitPos + bitsToRead)
        (acc ||| (bits_value <<< bitsRead)) (bitsRead + bitsToRead) numBits
  else acc
termination_by numBits - bitsRead
decreasing_by all_goals omega

/-- `BitPackUtils::pack_bits`: no-op returning the unchanged offset for
`num_bits` outside `[1, 32]`; otherwise masks the value to `num_bits`
bits, runs the write loop from `(offset / 8, offset % 8)`, and returns
the new bit offset `offset + num_bits`. -/
def pack_bits (buf : Nat → Nat) (offset value numBits : Nat) :
    (Nat → Nat) × Nat :=
  if numBits = 0 ∨ numBits > 32 then (buf, offset)
  else
    (packLoop buf (offset / 8) (offset % 8) (value &&& (2 ^ numBits - 1))
      0 numBits,
     offset + numBits)

/-- `BitPackUtils::unpack_bits`: returns 0 for `num_bits` outside
`[1, 32]`, otherwise runs the read loop from `(offset / 8, offset % 8)`. -/
def unpack_bits (buf : Nat → Nat) (offset numBits : Nat) : Nat :=
  if numBits = 0 ∨ numBits > 32 then 0
  else unpackLoop buf (offset / 8) (offset % 8) 0 0 numBits

/-! ### Bit-level toolkit -/

theorem or_low_high (x : Nat) (k : Nat) :
    (x &&& (2^k - 1)) ||| ((x >>> k) <<< k) = x := by
  apply Nat.eq_of_testBit_eq
  intro i
  simp only [Nat.testBit_or, Nat.testBit_and, Nat.testBit_two_pow_sub_one,
    Nat.testBit_shiftLeft, Nat.testBit_shiftRight]
  by_cases h : i < k
  · simp [h, Nat.not_le.mpr h]
  · simp [h, Nat.le_of_not_lt h, Nat.add_sub_cancel' (Nat.le_of_not_lt h)]

theorem xor_low_high (x : Nat) (k : Nat) :
    (x &&& (2^k - 1)) ^^^ ((x >>> k) <<< k) = x := by
  apply Nat.eq_of_testBit_eq
  intro i
  simp only [Nat.testBit_xor, Nat.testBit_and, Nat.testBit_two_pow_sub_one,
    Nat.testBit_shiftLeft, Nat.testBit_shiftRight]
  by_cases h : i < k
  · simp [h, Nat.not_le.mpr h]
  · simp [h, Nat.le_of_not_lt h, Nat.add_sub_cancel' (Nat.le_of_not_lt h)]

theorem shiftRight_lt_pow {x k m : Nat} (h : x < 2^(k+m)) : x >>> k < 2^m := by
  rw [Nat.shiftRight_eq_div_pow]
  exact Nat.div_lt_of_lt_mul (by rwa [← Nat.pow_add])

theorem shiftRight_eq_zero {x k : Nat} (h : x < 2^k) : x >>> k = 0 := by
  rw [Nat.shiftRight_eq_div_pow]
  exact Nat.div_eq_of_lt h

theorem xor_shiftRight (a b k : Nat) :
    (a ^^^ b) >>> k = (a >>> k) ^^^ (b >>> k) := by
  apply Nat.eq_of_testBit_eq
  intro i
  simp [Nat.testBit_xor, Nat.testBit_shiftRight]

/-- Little-endian 16-bit round trip: decoding the two bytes written by
`write_uint16` recovers the value. -/
theorem le16_roundtrip {v : Nat} (hv : v < 2^16) :
    (v &&& 0xFF) ||| (((v >>> 8) &&& 0xFF) <<< 8) = v := by
  have h8 : v >>> 8 < 2^8 := shiftRight_lt_pow (k := 8) (m := 8) hv
  have e1 : (v >>> 8) &&& 0xFF = v >>> 8 := by
    have := Nat.and_pow_two_sub_one_of_lt_two_pow (n := 8) h8
    simpa using this
  rw [e1]
  have := or_low_high v 8
  simpa using this

/-- Little-endian 32-bit round trip: `read_le32` of `le32_bytes v`
recovers `v`. -/
theorem read_le32_le32_bytes {v : Nat} (hv : v < 2^32) :
    read_le32 (le32_bytes v) 0 = v := by
  show (v &&& 0xFF) ||| (((v >>> 8) &&& 0xFF) <<< 8) |||
      (((v >>> 16) &&& 0xFF) <<< 16) ||| (((v >>> 24) &&& 0xFF) <<< 24) = v
  apply Nat.eq_of_testBit_eq
  intro i
  have h255 : (0xFF : Nat) = 2^8 - 1 := rfl
  simp only [h255, Nat.testBit_or, Nat.testBit_and, Nat.testBit_two_pow_sub_one,
    Nat.testBit_shiftLeft, Nat.testBit_shiftRight, ge_iff_le]
  by_cases h1 : i < 8
  · simp [h1, show ¬(8 ≤ i) by omega, show ¬(16 ≤ i) by omega,
      show ¬(24 ≤ i) by omega]
  · by_cases h2 : i < 16
    · simp [show ¬(i < 8) by omega, show (8:Nat) ≤ i by omega,
        show ¬(16 ≤ i) by omega, show ¬(24 ≤ i) by omega,
        show i - 8 < 8 by omega, Nat.add_sub_cancel' (show (8:Nat) ≤ i by omega)]
    · by_cases h3 : i < 24
      · simp [show ¬(i < 8) by omega, show ¬(i - 8 < 8) by omega,
          show (8:Nat) ≤ i by omega, show (16:Nat) ≤ i by omega,
          show ¬(24 ≤ i) by omega, show i - 16 < 8 by omega,
          Nat.add_sub_cancel' (show (16:Nat) ≤ i by omega)]
      · by_cases h4 : i < 32
        · simp [show ¬(i < 8) by omega, show ¬(i - 8 < 8) by omega,
            show ¬(i - 16 < 8) by omega, show (8:Nat) ≤ i by omega,
            show (16:Nat) ≤ i by omega, show (24:Nat) ≤ i by omega,
            show i - 24 < 8 by omega,
            Nat.add_sub_cancel' (show (24:Nat) ≤ i by omega)]
        · have hv0 : v.testBit i = false :=
            Nat.testBit_lt_two_pow (Nat.lt_of_lt_of_le hv
              (Nat.pow_le_pow_right (by norm_num) (Nat.le_of_not_lt h4)))
          simp [hv0, show ¬(i < 8) by omega, show ¬(i - 8 < 8) by omega,
            show ¬(i - 16 < 8) by omega, show ¬(i - 24 < 8) by omega]

/-! ### C6: the table-driven CRC32 equals the reference bitwise CRC32 -/

theorem crcStep_xor_shiftLeft_one (x d : Nat) :
    crcStep (x ^^^ (d <<< 1)) = crcStep x ^^^ d := by
  have hbit : (x ^^^ (d <<< 1)).testBit 0 = x.testBit 0 := by
    rw [Nat.testBit_xor]
    have h0 : (d <<< 1).testBit 0 = false := by
      rw [Nat.testBit_shiftLeft]
      simp
    rw [h0, Bool.xor_false]
  have hpar : (x ^^^ (d <<< 1)) &&& 1 = x &&& 1 := by
    simp only [Nat.and_one_is_mod]
    simp only [Nat.testBit_zero, decide_eq_decide] at hbit
    rcases Nat.mod_two_eq_zero_or_one x with hx | hx <;>
      rcases Nat.mod_two_eq_zero_or_one (x ^^^ (d <<< 1)) with hy | hy <;>
        simp_all
  have hshift : (x ^^^ (d <<< 1)) >>> 1 = (x >>> 1) ^^^ d := by
    rw [xor_shiftRight]
    congr 1
    simp
  unfold crcStep
  rw [hpar, hshift]
  by_cases h : x &&& 1 = 1
  · rw [if_pos h, if_pos h, Nat.xor_assoc, Nat.xor_comm d POLY, ← Nat.xor_assoc]
  · rw [if_neg h, if_neg h]

theorem crcStepN_xor_shiftLeft (k : Nat) :
    ∀ x c : Nat, crcStep^[k] (x ^^^ (c <<< k)) = crcStep^[k] x ^^^ c := by
  induction k with
  | zero => intro x c; simp
  | succ k ih =>
    intro x c
    rw [Function.iterate_succ_apply, Function.iterate_succ_apply]
    calc crcStep^[k] (crcStep (x ^^^ (c <<< (k+1))))
        = crcStep^[k] (crcStep (x ^^^ ((c <<< k) <<< 1))) := by
          rw [← Nat.shiftLeft_add]
      _ = crcStep^[k] (crcStep x ^^^ (c <<< k)) := by
          rw [crcStep_xor_shiftLeft_one]
      _ = crcStep^[k] (crcStep x) ^^^ c := ih _ _

/-- For byte inputs, one table-driven update of `crc32::calculate` equals
eight reference shift-xor steps on `crc ^^^ b`. -/
theorem crc32_update_eq_stepN {crc b : Nat} (hb : b < 256) :
    crc32_update crc b = crcStep^[8] (crc ^^^ b) := by
  have hb8 : (crc ^^^ b) >>> 8 = crc >>> 8 := by
    rw [xor_shiftRight, shiftRight_eq_zero (show b < 2^8 from hb), Nat.xor_zero]
  have hdecomp : ((crc ^^^ b) &&& 0xFF) ^^^ (((crc ^^^ b) >>> 8) <<< 8)
      = crc ^^^ b := xor_low_high (crc ^^^ b) 8
  calc crc32_update crc b
      = (crc >>> 8) ^^^ crcStep^[8] ((crc ^^^ b) &&& 0xFF) := rfl
    _ = crcStep^[8] ((crc ^^^ b) &&& 0xFF) ^^^ ((crc ^^^ b) >>> 8) := by
        rw [hb8, Nat.xor_comm]
    _ = crcStep^[8] (((crc ^^^ b) &&& 0xFF) ^^^ (((crc ^^^ b) >>> 8) <<< 8)) := by
        rw [crcStepN_xor_shiftLeft]
    _ = crcStep^[8] (crc ^^^ b) := by rw [hdecomp]

theorem crc32_foldl_eq {data : List Nat} (hdata : ∀ b ∈ data, b < 256) :
    ∀ a : Nat, data.foldl crc32_update a =
      data.foldl (fun crc b => crcStep^[8] (crc ^^^ b)) a := by
  induction data with
  | nil => intro a; rfl
  | cons b rest ih =>
    intro a
    have hb : b < 256 := hdata b (List.mem_cons_self b rest)
    have hrest : ∀ x ∈ rest, x < 256 := fun x hx => hdata x (List.mem_cons_of_mem b hx)
    simp only [List.foldl_cons]
    rw [crc32_update_eq_stepN hb, ih hrest]

/-- C6: `crc32::calculate` equals the standard reflected CRC32 with
polynomial `0xEDB88320`, initial register `0xFFFFFFFF` and final XOR
`0xFFFFFFFF` (the table-driven computation agrees with the bit-at-a-time
reference on every byte sequence); in particular it maps the ASCII bytes
of "123456789" to `0xCBF43926`, and equal byte ranges always produce the
same checksum. -/
theorem crc32_matches_reference :
    (∀ data : List Nat, (∀ b ∈ data, b < 256) →
      crc32_calculate data = crc32_reference data) ∧
    crc32_calculate [0x31, 0x32, 0x33, 0x34, 0x35, 0x36, 0x37, 0x38, 0x39]
      = 0xCBF43926 ∧
    (∀ a b : List Nat, a = b → crc32_calculate a = crc32_calculate b) := by
  refine ⟨?_, by decide, ?_⟩
  · intro data hdata
    unfold crc32_calculate crc32_reference
    rw [crc32_foldl_eq hdata]
  · intro a b h
    rw [h]

/-- Witness for C6: the equivalence instantiated at a concrete byte
list, with the byte-range hypothesis discharged by evaluation. -/
theorem crc32_matches_reference_witness :
    crc32_calculate [1, 2, 3] = crc32_reference [1, 2, 3] :=
  crc32_matches_reference.1 [1, 2, 3] (by decide)

/-! ### C3: Ping payload decode vs the 12-byte wire layout -/

/-- C3 (code bug): the 12-byte Ping payload of the concrete scenario
(`sequence_id = 12345`, `timestamp = 0`) is rejected by the code's
`PingHandler::deserialize_payload`, which demands
`sizeof(PingMessage) = 16` bytes — the padded in-memory struct size, not
the 12-byte wire size — whereas the spec's fixed-offset decoder accepts
it and yields `sequence_id = 12345`. -/
theorem ping_decode_rejects_wire_layout :
    PingHandler_deserialize_payload
        [0x39, 0x30, 0, 0, 0, 0, 0, 0, 0, 0, 0, 0] = none ∧
    ping_decode_spec [0x39, 0x30, 0, 0, 0, 0, 0, 0, 0, 0, 0, 0] =
      some { sequence_id := 12345, timestamp := 0 } := by
  constructor <;> decide

/-! ### C5: Echo payload decode -/

set_option maxRecDepth 8192 in
/-- Counterexample for C5: a 259-byte input whose declared length is 0
satisfies the claim's success conditions (declared length `0 ≤ 256` and
`2 + 0 ≤ 259` bytes available) yet the code rejects it, because the
handler's first check refuses any input buffer longer than 258 bytes. -/
theorem echo_decode_counterexample :
    read_le16 (List.replicate 259 0) 0 ≤ 256 ∧
    2 + read_le16 (List.replicate 259 0) 0 ≤
      (List.replicate 259 (0:Nat)).length ∧
    EchoHandler_deserialize_payload (List.replicate 259 0) = none := by
  refine ⟨by decide, by decide, ?_⟩
  decide

/-- C5 as amended: `EchoHandler`'s decode fails if and only if the input
buffer is longer than 258 bytes, shorter than 2 bytes, or shorter than
`2 + length` where `length` is the little-endian `u16` at bytes 0-1 (in
particular every declared length `> 256` fails); otherwise it succeeds
and copies exactly `length` bytes starting at offset 2. -/
theorem echo_decode_spec (data : List Nat) :
    (EchoHandler_deserialize_payload data = none ↔
      data.length > MAX_DATA + 2 ∨ data.length < 2 ∨
        data.length < 2 + read_le16 data 0) ∧
    (read_le16 data 0 > 256 ∧ 2 ≤ data.length →
      EchoHandler_deserialize_payload data = none) ∧
    (∀ m : EchoMessage, EchoHandler_deserialize_payload data = some m →
      m.length = read_le16 data 0 ∧
      m.data = (data.drop 2).take m.length ∧
      m.data.length = m.length) := by
  unfold EchoHandler_deserialize_payload
  refine ⟨?_, ?_, ?_⟩
  · split_ifs with h1 h2 h3
    · simp [h1]
    · simp [h2]
    · simp [h3]
    · simp [h1, h2, h3]
  · intro hcond
    split_ifs with h1 h2 h3
    · rfl
    · rfl
    · rfl
    · exfalso
      unfold MAX_DATA at h1
      omega
  · intro m hm
    split_ifs at hm with h1 h2 h3
    · simp only [Option.some.injEq] at hm
      subst hm
      refine ⟨rfl, rfl, ?_⟩
      simp only [List.length_take, List.length_drop]
      omega

/-- Witness for C5: the amended characterisation applied to the concrete
input `[2, 0, 9, 9]` (declared length 2, two data bytes), whose decode
succeeds with exactly those two bytes copied. -/
theorem echo_decode_spec_witness :
    (EchoMessage.mk 2 [9, 9]).length = read_le16 [2, 0, 9, 9] 0 ∧
    (EchoMessage.mk 2 [9, 9]).data =
      (([2, 0, 9, 9] : List Nat).drop 2).take (EchoMessage.mk 2 [9, 9]).length ∧
    (EchoMessage.mk 2 [9, 9]).data.length = (EchoMessage.mk 2 [9, 9]).length :=
  (echo_decode_spec [2, 0, 9, 9]).2.2 ⟨2, [9, 9]⟩ (by decide)

/-! ### C10: Data payload decode reads out of bounds -/

/-- C10 (code bug): on 4- and 5-byte inputs `DataHandler`'s decode reads
the `data_length` field at offsets 4-5, past the end of the buffer — the
length guard `length < 4` does not cover the six bytes the code then
unconditionally copies. -/
theorem data_decode_reads_out_of_bounds :
    DataHandler_deserialize_payload [0, 0, 0, 0] = none ∧
    DataHandler_deserialize_payload [0, 0, 0, 0, 0] = none := by
  constructor <;> decide

/-! ### C9: registry uniqueness invariant -/

theorem lookup_none_iff (reg : Registry) (t : Nat) :
    List.lookup t reg = none ↔ t ∉ reg.map Prod.fst := by
  induction reg with
  | nil => simp [List.lookup]
  | cons e rest ih =>
    obtain ⟨k, v⟩ := e
    by_cases hk : t = k
    · subst hk
      simp [List.lookup]
    · simp only [List.lookup, List.map_cons, List.mem_cons]
      rw [show (t == k) = false by simpa using hk]
      simp [ih, hk]

theorem dispatch_preserves_registry (r : Registry) (t : Nat) :
    (dispatch r t).2 = r := by
  unfold dispatch
  cases get_handler r t <;> rfl

theorem reachable_keys_nodup (r : Registry) (hr : ReachableRegistry r) :
    (r.map Prod.fst).Nodup := by
  induction hr with
  | init => simp
  | reg r h hr ih =>
    match h with
    | none => exact ih
    | some handler =>
      unfold register_handler
      by_cases hl : (List.lookup handler.message_type r).isSome
      · simpa [hl] using ih
      · have hnone : List.lookup handler.message_type r = none :=
          Option.not_isSome_iff_eq_none.mp hl
        have hnotin : handler.message_type ∉ r.map Prod.fst :=
          (lookup_none_iff r handler.message_type).mp hnone
        simpa [hl] using List.Nodup.cons hnotin ih
  | unreg r t hr ih =>
    unfold unregister_handler
    by_cases hl : (List.lookup t r).isSome
    · simp only [hl, if_pos]
      exact List.Nodup.sublist
        (List.Sublist.map Prod.fst (List.eraseP_sublist r)) ih
    · simpa [hl] using ih
  | disp r t hr ih =>
    rw [dispatch_preserves_registry]
    exact ih
  | clr r hr => simp [clear_registry]

/-- C9: in every registry state reachable by register / unregister /
dispatch / clear sequences there is at most one handler per message type
(the key list is duplicate-free), and a second `register_handler` for an
already-registered type returns `false` and leaves the originally
registered handler in place (`get_handler` still returns it). -/
theorem registry_uniqueness (r : Registry) (hr : ReachableRegistry r) :
    (r.map Prod.fst).Nodup ∧
    ∀ (h h₀ : Handler), get_handler r h.message_type = some h₀ →
      (register_handler r (some h)).1 = false ∧
      get_handler (register_handler r (some h)).2 h.message_type = some h₀ := by
  refine ⟨reachable_keys_nodup r hr, ?_⟩
  intro h h₀ hget
  have hsome : (List.lookup h.message_type r).isSome := by
    unfold get_handler at hget
    simp [hget]
  have hreg : register_handler r (some h) = (false, r) := by
    unfold register_handler
    simp [hsome]
  rw [hreg]
  exact ⟨rfl, hget⟩

/-- Witness for C9: in the reachable one-entry registry holding handler
`⟨1, 7, true⟩`, registering a second handler `⟨1, 8, true⟩` for type 1
fails and the original handler is still returned. -/
theorem registry_uniqueness_witness :
    (register_handler
        (register_handler [] (some ⟨1, 7, true⟩)).2 (some ⟨1, 8, true⟩)).1
      = false ∧
    get_handler (register_handler
        (register_handler [] (some ⟨1, 7, true⟩)).2 (some ⟨1, 8, true⟩)).2
      1 = some ⟨1, 7, true⟩ :=
  (registry_uniqueness _
    (ReachableRegistry.reg [] (some ⟨1, 7, true⟩) ReachableRegistry.init)).2
    ⟨1, 8, true⟩ ⟨1, 7, true⟩ (by decide)

/-! ### C2: deserialize_frame returns consumed = 0 exactly on failure -/

/-- C2: `deserialize_frame` signals `consumed = 0` (modelled `none`)
exactly when the input is shorter than 8 bytes, or the decoded header is
invalid, or the input is shorter than the full frame
`8 + payload_length + 4` (so every proper prefix of a frame, including
the empty one, yields `consumed = 0`), or the recomputed CRC32 of the
extracted payload differs from the trailing little-endian checksum; on
success `consumed` is exactly `8 + payload_length + 4`. -/
theorem deserialize_frame_consumed (data : List Nat) :
    (deserialize_frame data = none ↔
      data.length < FRAME_HEADER_SIZE ∨
      (decode_header_raw data).is_valid = false ∨
      data.length < calculate_frame_size (decode_header_raw data) ∨
      read_le32 data (FRAME_HEADER_SIZE + (decode_header_raw data).payload_length)
        ≠ crc32_calculate ((data.drop FRAME_HEADER_SIZE).take
            (decode_header_raw data).payload_length)) ∧
    (∀ h p c, deserialize_frame data = some (h, p, c) →
      c = FRAME_HEADER_SIZE + h.payload_length + CHECKSUM_SIZE) := by
  unfold deserialize_frame deserialize_header
  constructor
  · split_ifs with h1 h2
    · simp [h1]
    · simp only []
      split_ifs with h3 h4
      · simp [h3]
      · simp [h4]
      · simp only [ne_eq, not_not] at h4
        simp [h2, h3, h4]
        omega
    · simp [h2]
  · intro h p c
    split_ifs with h1 h2
    · simp
    · simp only []
      split_ifs with h3 h4
      · simp
      · simp
      · simp only [Option.some.injEq, Prod.mk.injEq, and_imp]
        intro hh _ hc
        subst hh
        rw [← hc]
        rfl
    · simp

/-- Witness for C2: the characterisation applied to the shortest valid
frame (empty payload, checksum `CRC32([]) = 0`), whose parse succeeds
with `consumed = 12`. -/
theorem deserialize_frame_consumed_witness :
    (12 : Nat) = FRAME_HEADER_SIZE +
      (FrameHeader.mk 0xAB 0x01 0x01 0 0 0).payload_length + CHECKSUM_SIZE :=
  (deserialize_frame_consumed
      [0xAB, 0x01, 0x01, 0, 0, 0, 0, 0, 0, 0, 0, 0]).2
    (FrameHeader.mk 0xAB 0x01 0x01 0 0 0) [] 12 (by decide)

/-! ### C1: frame round trip -/

theorem crcStep_lt {x : Nat} (h : x < 2^32) : crcStep x < 2^32 := by
  unfold crcStep
  have hdiv : x >>> 1 < 2^32 := by
    rw [Nat.shiftRight_eq_div_pow]
    omega
  split_ifs
  · exact Nat.xor_lt_two_pow hdiv (by norm_num [POLY])
  · exact hdiv

theorem crcStep_iter_lt (n : Nat) {x : Nat} (h : x < 2^32) :
    crcStep^[n] x < 2^32 := by
  induction n generalizing x with
  | zero => simpa using h
  | succ n ih =>
    rw [Function.iterate_succ_apply]
    exact ih (crcStep_lt h)

theorem crc32_update_lt {crc : Nat} (b : Nat) (h : crc < 2^32) :
    crc32_update crc b < 2^32 := by
  unfold crc32_update crc_table
  refine Nat.xor_lt_two_pow ?_ (crcStep_iter_lt 8 ?_)
  · rw [Nat.shiftRight_eq_div_pow]
    omega
  · have : (crc ^^^ b) &&& 0xFF ≤ 0xFF := Nat.and_le_right
    omega

theorem crc32_foldl_lt (data : List Nat) :
    ∀ a : Nat, a < 2^32 → data.foldl crc32_update a < 2^32 := by
  induction data with
  | nil => intro a ha; simpa using ha
  | cons b rest ih =>
    intro a ha
    simp only [List.foldl_cons]
    exact ih _ (crc32_update_lt b ha)

theorem crc32_calculate_lt (data : List Nat) : crc32_calculate data < 2^32 := by
  unfold crc32_calculate
  exact Nat.xor_lt_two_pow (crc32_foldl_lt data 0xFFFFFFFF (by norm_num))
    (by norm_num)

theorem write_success {b : NetworkBuffer} {bytes : List Nat}
    (h : b.contents.length + bytes.length ≤ b.cap) :
    b.write bytes = (true, ⟨b.cap, b.contents ++ bytes⟩) := by
  unfold NetworkBuffer.write
  rw [if_neg (by omega)]

theorem write_byte_success {b : NetworkBuffer} {x : Nat}
    (h : b.contents.length + 1 ≤ b.cap) :
    b.write_byte x = (true, ⟨b.cap, b.contents ++ [x]⟩) := by
  unfold NetworkBuffer.write_byte
  exact write_success (by simpa using h)

theorem write_uint16_success {b : NetworkBuffer} {v : Nat}
    (h : b.contents.length + 2 ≤ b.cap) :
    b.write_uint16 v =
      (true, ⟨b.cap, b.contents ++ [v &&& 0xFF, (v >>> 8) &&& 0xFF]⟩) := by
  unfold NetworkBuffer.write_uint16
  exact write_success (by simpa using h)

theorem serialize_header_success (h : FrameHeader) (b : NetworkBuffer)
    (hcap : b.contents.length + 8 ≤ b.cap) :
    serialize_header h b = (true, ⟨b.cap, b.contents ++ header_bytes h⟩) := by
  obtain ⟨cap, c⟩ := b
  simp only at hcap
  have e1 : NetworkBuffer.write_byte ⟨cap, c⟩ h.magic =
      (true, ⟨cap, c ++ [h.magic]⟩) := write_byte_success (by simpa using by omega)
  have e2 : NetworkBuffer.write_byte ⟨cap, c ++ [h.magic]⟩ h.version =
      (true, ⟨cap, (c ++ [h.magic]) ++ [h.version]⟩) :=
    write_byte_success (by simp; omega)
  have e3 : NetworkBuffer.write_byte ⟨cap, (c ++ [h.magic]) ++ [h.version]⟩
      h.message_type =
      (true, ⟨cap, ((c ++ [h.magic]) ++ [h.version]) ++ [h.message_type]⟩) :=
    write_byte_success (by simp; omega)
  have e4 : NetworkBuffer.write_byte
      ⟨cap, ((c ++ [h.magic]) ++ [h.version]) ++ [h.message_type]⟩ h.flags =
      (true, ⟨cap, (((c ++ [h.magic]) ++ [h.version]) ++ [h.message_type])
        ++ [h.flags]⟩) :=
    write_byte_success (by simp; omega)
  have e5 : NetworkBuffer.write_uint16
      ⟨cap, (((c ++ [h.magic]) ++ [h.version]) ++ [h.message_type]) ++ [h.flags]⟩
      h.payload_length =
      (true, ⟨cap, ((((c ++ [h.magic]) ++ [h.version]) ++ [h.message_type])
        ++ [h.flags]) ++ [h.payload_length &&& 0xFF,
          (h.payload_length >>> 8) &&& 0xFF]⟩) :=
    write_uint16_success (by simp; omega)
  have e6 : NetworkBuffer.write_uint16
      ⟨cap, ((((c ++ [h.magic]) ++ [h.version]) ++ [h.message_type])
        ++ [h.flags]) ++ [h.payload_length &&& 0xFF,
          (h.payload_length >>> 8) &&& 0xFF]⟩ h.reserved =
      (true, ⟨cap, (((((c ++ [h.magic]) ++ [h.version]) ++ [h.message_type])
        ++ [h.flags]) ++ [h.payload_length &&& 0xFF,
          (h.payload_length >>> 8) &&& 0xFF]) ++ [h.reserved &&& 0xFF,
          (h.reserved >>> 8) &&& 0xFF]⟩) :=
    write_uint16_success (by simp; omega)
  unfold serialize_header
  rw [e1]
  simp only []
  rw [e2]
  simp only []
  rw [e3]
  simp only []
  rw [e4]
  simp only []
  rw [e5]
  simp only []
  rw [e6]
  simp [header_bytes]

theorem header_bytes_length (h : FrameHeader) : (header_bytes h).length = 8 :=
  rfl

theorem serialize_frame_success (h : FrameHeader) (p : List Nat) (cap : Nat)
    (hv : h.is_valid = true) (hcap : 12 + p.length ≤ cap) :
    serialize_frame h p ⟨cap, []⟩ =
      (true, ⟨cap, header_bytes h ++ p ++ le32_bytes (crc32_calculate p)⟩) := by
  unfold serialize_frame
  rw [hv]
  simp only [Bool.not_true]
  rw [serialize_header_success h ⟨cap, []⟩ (by simp; omega)]
  simp only [List.nil_append]
  unfold serialize_payload_and_checksum
  rw [write_success (by simp [header_bytes]; omega)]
  simp only []
  have hdrop : ((header_bytes h ++ p).drop FRAME_HEADER_SIZE).take p.length = p := by
    rw [show FRAME_HEADER_SIZE = (header_bytes h).length from rfl,
      List.drop_left, List.take_length]
  rw [hdrop, write_success (by simp [header_bytes, le32_bytes]; omega)]
  simp [List.append_assoc]

/-- C1: round trip of the frame codec.  For every header `h` with
`h.is_valid()` (and `reserved` in `uint16_t` range, as the C++ field type
guarantees) and every payload of exactly `h.payload_length` bytes,
`serialize_frame` into an empty buffer of sufficient capacity succeeds,
and `deserialize_frame` on the written bytes succeeds returning the
identical header, the identical payload bytes, and
`consumed = 8 + payload_length + 4`. -/
theorem serialize_deserialize_roundtrip (h : FrameHeader) (p : List Nat)
    (cap : Nat) (hv : h.is_valid = true) (hres : h.reserved < 65536)
    (hlen : p.length = h.payload_length) (hcap : 12 + p.length ≤ cap) :
    (serialize_frame h p ⟨cap, []⟩).1 = true ∧
    deserialize_frame (serialize_frame h p ⟨cap, []⟩).2.contents =
      some (h, p, FRAME_HEADER_SIZE + h.payload_length + CHECKSUM_SIZE) := by
  have hser := serialize_frame_success h p cap hv hcap
  rw [hser]
  refine ⟨rfl, ?_⟩
  have hvv := hv
  unfold FrameHeader.is_valid at hvv
  simp only [Bool.and_eq_true, beq_iff_eq, decide_eq_true_eq] at hvv
  obtain ⟨⟨hmagic, hversion⟩, hplen⟩ := hvv
  have hplen16 : h.payload_length < 2^16 := by
    unfold MAX_PAYLOAD_SIZE at hplen
    omega
  set c := crc32_calculate p with hc
  set frame := header_bytes h ++ p ++ le32_bytes c with hframe
  have hflen : frame.length = 8 + p.length + 4 := by
    simp [hframe, header_bytes, le32_bytes]
    omega
  have hdecode : decode_header_raw frame = h := by
    have hget : ∀ i : Nat, i < 8 → frame.getD i 0 = (header_bytes h).getD i 0 := by
      intro i hi
      rw [hframe, List.append_assoc, List.getD_append _ _ _ _ (by simp [header_bytes]; omega)]
    unfold decode_header_raw
    rw [hget 0 (by norm_num), hget 1 (by norm_num), hget 2 (by norm_num),
      hget 3 (by norm_num), hget 4 (by norm_num), hget 5 (by norm_num),
      hget 6 (by norm_num), hget 7 (by norm_num)]
    show FrameHeader.mk h.magic h.version h.message_type h.flags
        ((h.payload_length &&& 0xFF) ||| (((h.payload_length >>> 8) &&& 0xFF) <<< 8))
        ((h.reserved &&& 0xFF) ||| (((h.reserved >>> 8) &&& 0xFF) <<< 8)) = h
    rw [le16_roundtrip hplen16, le16_roundtrip (show h.reserved < 2^16 by omega)]
  have hheader : deserialize_header frame = some h := by
    unfold deserialize_header
    rw [if_neg (by simp only [hflen, FRAME_HEADER_SIZE]; omega), hdecode, hv]
    simp
  unfold deserialize_frame
  rw [hheader]
  simp only []
  have hsize : calculate_frame_size h = 8 + h.payload_length + 4 := rfl
  rw [if_neg (by rw [hsize]; omega)]
  have hrecv : read_le32 frame (FRAME_HEADER_SIZE + h.payload_length) = c := by
    have hgetc : ∀ j : Nat, j < 4 →
        frame.getD (8 + h.payload_length + j) 0 = (le32_bytes c).getD j 0 := by
      intro j hj
      rw [hframe, List.getD_append_right _ _ _ _ (by simp [header_bytes]; omega)]
      congr 1
      simp [header_bytes]
      omega
    show frame.getD (FRAME_HEADER_SIZE + h.payload_length) 0 |||
        (frame.getD (FRAME_HEADER_SIZE + h.payload_length + 1) 0 <<< 8) |||
        (frame.getD (FRAME_HEADER_SIZE + h.payload_length + 2) 0 <<< 16) |||
        (frame.getD (FRAME_HEADER_SIZE + h.payload_length + 3) 0 <<< 24) = c
    rw [show FRAME_HEADER_SIZE + h.payload_length =
      8 + h.payload_length + 0 from by simp [FRAME_HEADER_SIZE],
      hgetc 0 (by norm_num)]
    rw [show 8 + h.payload_length + 0 + 1 = 8 + h.payload_length + 1 from by omega,
      hgetc 1 (by norm_num)]
    rw [show 8 + h.payload_length + 1 + 1 = 8 + h.payload_length + 2 from by omega]
    rw [hgetc 2 (by norm_num)]
    rw [show 8 + h.payload_length + 2 + 1 = 8 + h.payload_length + 3 from by omega]
    rw [hgetc 3 (by norm_num)]
    exact read_le32_le32_bytes (crc32_calculate_lt p)
  have hpay : (frame.drop FRAME_HEADER_SIZE).take h.payload_length = p := by
    rw [hframe, List.append_assoc,
      show FRAME_HEADER_SIZE = (header_bytes h).length from rfl,
      List.drop_left, ← hlen, List.take_left]
  rw [hrecv, hpay]
  simp [calculate_frame_size]

/-- Witness for C1: the round trip applied to the concrete valid header
`{magic 0xAB, version 1, type 1, flags 0, payload_length 2, reserved 0}`
with payload `[5, 6]` and capacity 16. -/
theorem serialize_deserialize_roundtrip_witness :
    (serialize_frame (FrameHeader.mk 0xAB 0x01 0x01 0 2 0) [5, 6]
        ⟨16, []⟩).1 = true ∧
    deserialize_frame (serialize_frame (FrameHeader.mk 0xAB 0x01 0x01 0 2 0)
        [5, 6] ⟨16, []⟩).2.contents =
      some (FrameHeader.mk 0xAB 0x01 0x01 0 2 0, [5, 6],
        FRAME_HEADER_SIZE + (FrameHeader.mk 0xAB 0x01 0x01 0 2 0).payload_length
          + CHECKSUM_SIZE) :=
  serialize_deserialize_roundtrip (FrameHeader.mk 0xAB 0x01 0x01 0 2 0) [5, 6]
    16 (by decide) (by decide) (by decide) (by decide)

/-! ### C7: serialize_frame failure atomicity -/

/-- Counterexample for C7: serialising a valid empty-payload frame into
an empty buffer of capacity 1 fails (insufficient room), yet the magic
byte has already been written: the buffer contents change from `[]` to
`[0xAB]`, so the failed operation is observable as a partial write. -/
theorem serialize_frame_partial_write :
    serialize_frame (FrameHeader.mk 0xAB 0x01 0x01 0 0 0) []
        (NetworkBuffer.mk 1 []) = (false, NetworkBuffer.mk 1 [0xAB]) ∧
    NetworkBuffer.mk 1 [0xAB] ≠ NetworkBuffer.mk 1 ([] : List Nat) := by
  constructor <;> decide

/-- C7 as amended: when `serialize_frame` fails because the header is
invalid, the output buffer is left completely unchanged; when it fails
for insufficient room, partially written header or payload bytes may
remain in the buffer (the operation is not atomic in that case — see the
counterexample). -/
theorem serialize_frame_invalid_header_atomic (h : FrameHeader)
    (p : List Nat) (b : NetworkBuffer) (hv : h.is_valid = false) :
    serialize_frame h p b = (false, b) := by
  unfold serialize_frame
  rw [hv]
  rfl

/-- Witness for C7: the invalid-header case at a concrete all-zero
header, which leaves a concrete buffer untouched. -/
theorem serialize_frame_invalid_header_atomic_witness :
    serialize_frame (FrameHeader.mk 0 0 0 0 0 0) [1, 2]
        (NetworkBuffer.mk 4 [9]) = (false, NetworkBuffer.mk 4 [9]) :=
  serialize_frame_invalid_header_atomic (FrameHeader.mk 0 0 0 0 0 0) [1, 2]
    (NetworkBuffer.mk 4 [9]) (by decide)

/-! ### C8: validate_frame vs deserialize_frame -/

/-- Counterexample for C8: a valid 12-byte empty-payload frame followed by
one trailing garbage byte is accepted by `deserialize_frame` (which only
requires `length ≥ frame_size` and consumes 12) but rejected by
`validate_frame` (which requires `length == frame_size` exactly), so the
two do not agree as the claim states. -/
theorem validate_frame_counterexample :
    deserialize_frame [0xAB, 0x01, 0x01, 0, 0, 0, 0, 0, 0, 0, 0, 0, 7] =
      some (FrameHeader.mk 0xAB 0x01 0x01 0 0 0, [], 12) ∧
    validate_frame [0xAB, 0x01, 0x01, 0, 0, 0, 0, 0, 0, 0, 0, 0, 7] =
      false := by
  constructor <;> decide

/-- C8 as amended: `validate_frame(b, n)` returns true if and only if
`deserialize_frame(b, n)` succeeds consuming exactly `n` bytes, i.e. the
buffer is one whole frame with nothing trailing; `deserialize_frame`
additionally accepts buffers with extra bytes after the frame, which
`validate_frame` rejects. -/
theorem validate_frame_iff (data : List Nat) :
    validate_frame data = true ↔
      ∃ h p, deserialize_frame data = some (h, p, data.length) := by
  unfold validate_frame deserialize_frame
  cases hh : deserialize_header data with
  | none =>
    split_ifs <;> simp
  | some header =>
    by_cases hlen : data.length = calculate_frame_size header
    · have hfs : calculate_frame_size header =
          8 + header.payload_length + 4 := rfl
      have h12 : ¬ data.length < MIN_FRAME_SIZE := by
        unfold MIN_FRAME_SIZE FRAME_HEADER_SIZE CHECKSUM_SIZE
        omega
      rw [if_neg h12]
      simp only []
      rw [if_neg (not_not.mpr hlen), if_neg (by omega)]
      by_cases hcrc : read_le32 data (FRAME_HEADER_SIZE + header.payload_length)
          = crc32_calculate
            ((data.drop FRAME_HEADER_SIZE).take header.payload_length)
      · rw [if_neg (not_not.mpr hcrc)]
        simp [hcrc, hlen]
      · rw [if_pos hcrc]
        simp [hcrc]
    · by_cases hlt : data.length < calculate_frame_size header
      · simp only []
        rw [if_pos hlt]
        split_ifs <;> simp_all
      · simp only []
        rw [if_neg hlt]
        split_ifs with h1 h2 h3 <;> simp_all <;> omega

/-- Witness for C8's amended equivalence: the exact 12-byte empty-payload
frame passes `validate_frame`, via the backward direction applied to its
successful exact-size parse. -/
theorem validate_frame_iff_witness :
    validate_frame [0xAB, 0x01, 0x01, 0, 0, 0, 0, 0, 0, 0, 0, 0] = true :=
  (validate_frame_iff [0xAB, 0x01, 0x01, 0, 0, 0, 0, 0, 0, 0, 0, 0]).mpr
    ⟨FrameHeader.mk 0xAB 0x01 0x01 0 0 0, [], by decide⟩

/-! ### C4: bit-pack round trip -/

/-- Reading a freshly OR-ed chunk back out of a byte whose target bits
were clear recovers the chunk. -/
theorem or_shift_read_back {B c : Nat} (bitPos t : Nat) (hc : c < 2 ^ t)
    (hbits : ∀ i, i < t → B.testBit (bitPos + i) = false) :
    ((B ||| (c <<< bitPos)) >>> bitPos) &&& (2 ^ t - 1) = c := by
  apply Nat.eq_of_testBit_eq
  intro i
  simp only [Nat.testBit_and, Nat.testBit_shiftRight, Nat.testBit_or,
    Nat.testBit_shiftLeft, Nat.testBit_two_pow_sub_one, ge_iff_le]
  by_cases hi : i < t
  · rw [hbits i hi]
    simp [hi, Nat.le_add_right, Nat.add_sub_cancel_left]
  · have hci : c.testBit i = false :=
      Nat.testBit_lt_two_pow (Nat.lt_of_lt_of_le hc
        (Nat.pow_le_pow_right (by norm_num) (by omega)))
    simp [hi, hci]

/-- Two adjacent extracted chunks of `v`, OR-ed at their bit positions,
merge into the single wider chunk. -/
theorem or_chunk_merge (v w t a : Nat) (hta : t ≤ a) :
    (((v >>> w) &&& (2 ^ t - 1)) <<< w) |||
      (((v >>> (w + t)) &&& (2 ^ (a - t) - 1)) <<< (w + t)) =
      ((v >>> w) &&& (2 ^ a - 1)) <<< w := by
  apply Nat.eq_of_testBit_eq
  intro j
  simp only [Nat.testBit_or, Nat.testBit_shiftLeft, Nat.testBit_and,
    Nat.testBit_shiftRight, Nat.testBit_two_pow_sub_one, ge_iff_le]
  by_cases h1 : j < w
  · simp [show ¬(w ≤ j) by omega, show ¬(w + t ≤ j) by omega]
  · by_cases h2 : j < w + t
    · simp [show w ≤ j by omega, show ¬(w + t ≤ j) by omega,
        show j - w < t by omega, show j - w < a by omega]
    · by_cases h3 : j < w + a
      · simp [show w ≤ j by omega, show w + t ≤ j by omega,
          show ¬(j - w < t) by omega, show j - w < a by omega,
          show j - (w + t) < a - t by omega]
      · simp [show ¬(j - w < t) by omega, show ¬(j - (w + t) < a - t) by omega,
          show ¬(j - w < a) by omega]

/-- The pack loop never touches bytes before its current position. -/
theorem packLoop_frame :
    ∀ (m : Nat) (buf : Nat → Nat) (bytePos bitPos value w n j : Nat),
      n - w ≤ m → j < bytePos →
      packLoop buf bytePos bitPos value w n j = buf j := by
  intro m
  induction m with
  | zero =>
    intro buf bytePos bitPos value w n j hm hj
    rw [packLoop, dif_neg (by omega)]
  | succ m ih =>
    intro buf bytePos bitPos value w n j hm hj
    rw [packLoop]
    by_cases h : w < n ∧ bitPos < 8
    · rw [dif_pos h]
      split_ifs with h8
      · rw [ih _ _ _ _ _ _ _ (by omega) (by omega)]
        simp [show j ≠ bytePos by omega]
      · rw [ih _ _ _ _ _ _ _ (by omega) (by omega)]
        simp [show j ≠ bytePos by omega]
    · rw [dif_neg h]

/-- The heart of C4's round trip: when the `n - w` bits ahead of the
current position are clear in the buffer, running the read loop over the
result of the write loop from the same position appends exactly the
remaining bits of `value` to the accumulator. -/
theorem pack_unpack_loop :
    ∀ (m : Nat) (buf : Nat → Nat) (bytePos bitPos value acc w n : Nat),
      n - w ≤ m → bitPos < 8 →
      (∀ i, i < n - w →
        (buf ((bytePos * 8 + bitPos + i) / 8)).testBit
          ((bytePos * 8 + bitPos + i) % 8) = false) →
      unpackLoop (packLoop buf bytePos bitPos value w n) bytePos bitPos acc w n
        = acc ||| (((value >>> w) &&& (2 ^ (n - w) - 1)) <<< w) := by
  intro m
  induction m with
  | zero =>
    intro buf bytePos bitPos value acc w n hm hbit hz
    rw [packLoop, dif_neg (by omega), unpackLoop, dif_neg (by omega)]
    simp [show n - w = 0 by omega]
  | succ m ih =>
    intro buf bytePos bitPos value acc w n hm hbit hz
    by_cases hw : w < n
    case neg =>
      rw [packLoop, dif_neg (by omega), unpackLoop, dif_neg (by omega)]
      simp [show n - w = 0 by omega]
    case pos =>
      set t := min (8 - bitPos) (n - w) with htdef
      set c := (value >>> w) &&& (2 ^ t - 1) with hcdef
      set buf' : Nat → Nat := fun j =>
        if j = bytePos then buf bytePos ||| (c <<< bitPos) else buf j
        with hbufdef
      have ht1 : 1 ≤ t := by omega
      have ht8 : bitPos + t ≤ 8 := by omega
      have hc2 : c < 2 ^ t := by
        have hle : (value >>> w) &&& (2 ^ t - 1) ≤ 2 ^ t - 1 := Nat.and_le_right
        have hpos : 0 < 2 ^ t := Nat.pos_pow_of_pos t (by norm_num)
        omega
      have hbitsB : ∀ i, i < t → (buf bytePos).testBit (bitPos + i) = false := by
        intro i hi
        have h1 := hz i (by omega)
        have hdiv : (bytePos * 8 + bitPos + i) / 8 = bytePos := by omega
        have hmod : (bytePos * 8 + bitPos + i) % 8 = bitPos + i := by omega
        rwa [hdiv, hmod] at h1
      have hpack : packLoop buf bytePos bitPos value w n =
          if 8 ≤ bitPos + t then
            packLoop buf' (bytePos + 1) 0 value (w + t) n
          else
            packLoop buf' bytePos (bitPos + t) value (w + t) n := by
        rw [packLoop, dif_pos ⟨hw, hbit⟩]
      have hFbyte : (packLoop buf bytePos bitPos value w n) bytePos
          = buf' bytePos := by
        rw [hpack]
        split_ifs with h8
        · exact packLoop_frame m buf' (bytePos + 1) 0 value (w + t) n bytePos
            (by omega) (by omega)
        · rw [packLoop, dif_neg (by omega)]
      have hchunk : (buf' bytePos >>> bitPos) &&& (2 ^ t - 1) = c := by
        have hb : buf' bytePos = buf bytePos ||| (c <<< bitPos) := by
          rw [hbufdef]
          simp
        rw [hb]
        exact or_shift_read_back bitPos t hc2 hbitsB
      have hunpack :
          unpackLoop (packLoop buf bytePos bitPos value w n) bytePos bitPos
              acc w n =
            if 8 ≤ bitPos + t then
              unpackLoop (packLoop buf bytePos bitPos value w n) (bytePos + 1)
                0 (acc ||| (c <<< w)) (w + t) n
            else
              unpackLoop (packLoop buf bytePos bitPos value w n) bytePos
                (bitPos + t) (acc ||| (c <<< w)) (w + t) n := by
        rw [unpackLoop, dif_pos ⟨hw, hbit⟩]
        simp only [← htdef]
        rw [hFbyte, hchunk]
      rw [hunpack]
      split_ifs with h8
      · rw [hpack, if_pos h8]
        rw [ih buf' (bytePos + 1) 0 value (acc ||| (c <<< w)) (w + t) n
          (by omega) (by omega) ?_]
        · rw [Nat.or_assoc, hcdef,
            show n - (w + t) = (n - w) - t by omega,
            or_chunk_merge value w t (n - w) (by omega)]
        · intro i hi
          have hne : ((bytePos + 1) * 8 + 0 + i) / 8 ≠ bytePos := by omega
          have hz' := hz (t + i) (by omega)
          rw [hbufdef]
          simp only []
          rw [if_neg hne,
            show (bytePos + 1) * 8 + 0 + i = bytePos * 8 + bitPos + (t + i)
              from by omega]
          exact hz'
      · have htn : t = n - w := by omega
        rw [hpack, if_neg h8, packLoop, dif_neg (by omega),
          unpackLoop, dif_neg (by omega), hcdef, htn]

/-- C4 as amended: the bit-pack round trip holds provided the `n` target
bits of the buffer at bit positions `off .. off+n-1` are initially zero
(e.g. a zeroed buffer): for every such buffer, every bit offset, every
`num_bits ∈ [1, 32]` and every `v < 2^n`, `pack_bits` returns the new
offset `off + n` and `unpack_bits` over the written buffer returns `v`.
Because `pack_bits` ORs chunks into the buffer without clearing the
destination bits first, pre-set bits inside the target range survive and
corrupt the read-back, so the unconditional claim fails (see the
counterexample). -/
theorem pack_unpack_roundtrip (buf : Nat → Nat) (off v n : Nat)
    (h1 : 1 ≤ n) (h2 : n ≤ 32) (hv : v < 2 ^ n)
    (hz : ∀ i, i < n →
      (buf ((off + i) / 8)).testBit ((off + i) % 8) = false) :
    (pack_bits buf off v n).2 = off + n ∧
    unpack_bits (pack_bits buf off v n).1 off n = v := by
  unfold pack_bits unpack_bits
  rw [if_neg (by omega), if_neg (by omega)]
  refine ⟨rfl, ?_⟩
  have hmask : v &&& (2 ^ n - 1) = v :=
    Nat.and_pow_two_sub_one_of_lt_two_pow hv
  have hz' : ∀ i, i < n - 0 →
      (buf ((off / 8 * 8 + off % 8 + i) / 8)).testBit
        ((off / 8 * 8 + off % 8 + i) % 8) = false := by
    intro i hi
    have hpos : off / 8 * 8 + off % 8 + i = off + i := by omega
    rw [hpos]
    exact hz i (by omega)
  rw [pack_unpack_loop n buf (off / 8) (off % 8) (v &&& (2 ^ n - 1)) 0 0 n
    (by omega) (by omega) hz']
  simp only [Nat.sub_zero, Nat.shiftRight_zero, Nat.shiftLeft_zero,
    Nat.zero_or]
  rw [hmask, hmask]

/-- Witness for C4's amended round trip: packing `v = 5` with `n = 4`
bits at bit offset 3 into the all-zero buffer and unpacking it returns
5, and the returned offset is 7. -/
theorem pack_unpack_roundtrip_witness :
    (pack_bits (fun _ => 0) 3 5 4).2 = 3 + 4 ∧
    unpack_bits (pack_bits (fun _ => 0) 3 5 4).1 3 4 = 5 :=
  pack_unpack_roundtrip (fun _ => 0) 3 5 4 (by norm_num) (by norm_num)
    (by norm_num) (fun i _ => by simp)

/-- Counterexample for C4: on a buffer whose first byte is 1 (bit 0 set),
packing the single bit `v = 0` at offset 0 and unpacking it yields 1,
not 0 — `pack_bits` ORs into the buffer and cannot clear a set bit —
although `v = 0 < 2^1` and the returned offset `0 + 1` is as claimed. -/
theorem pack_bits_counterexample :
    (pack_bits (fun _ => 1) 0 0 1).2 = 0 + 1 ∧
    (0 : Nat) < 2 ^ 1 ∧
    unpack_bits (pack_bits (fun _ => 1) 0 0 1).1 0 1 = 1 := by
  refine ⟨?_, by norm_num, ?_⟩
  · rw [pack_bits, if_neg (by norm_num)]
  · rw [pack_bits, if_neg (by norm_num)]
    rw [unpack_bits, if_neg (by norm_num)]
    norm_num
    rw [packLoop, dif_pos (by norm_num)]
    norm_num
    rw [packLoop, dif_neg (by norm_num)]
    rw [unpackLoop, dif_pos (by norm_num)]
    norm_num
    rw [unpackLoop, dif_neg (by norm_num)]

end Protocol
